import Mathlib

/-!
Verification of `src/gpuvis_utils.cpp` (gpuvis utility routines).

The file shallowly embeds the cross-thread log buffer (`logf_init`, `logf`,
`logf_update`, `logf_clear`, `logf_get`), the component index/string codecs
(`comp_val_to_abc`, `comp_abc_to_val`, `comp_str_parse`,
`comp_str_create_abc`) and the in-place substring replacement
(`string_replace_str`), and proves the specified properties about them.

Conventions of the embedding:
* The global state of the log subsystem (`g_main_tid`, `g_log`,
  `g_thread_log`, the mutex) becomes an explicit `LogState` record threaded
  through the operations.  Log entries are Lean `String`s (the C code stores
  heap-allocated `char *`).
* The mutex cannot be modelled operationally in a sequential embedding; we
  record instead how many times `SDL_LockMutex` / `SDL_UnlockMutex` complete,
  in the ghost counters `lock_acquires` / `lock_releases`.
* `vasprintf` is external formatting; its result enters `logf` as an
  `Option String` (`none` = the `buf == NULL` failure path).
* C strings become `List Char`; reading past the end of a string yields the
  NUL terminator, which `cAt` models with a `Char.ofNat 0` default.
* `uint32_t` arithmetic is `Nat` arithmetic reduced mod `2 ^ 32` (`u32`)
  wherever the C code can wrap.
-/

/-- The global state of the log subsystem in `gpuvis_utils.cpp`:
`g_main_tid`, `g_log`, `g_thread_log`, plus ghost counters for completed
mutex acquire / release calls. -/
structure LogState where
  main_tid : Nat
  g_log : List String
  g_thread_log : List String
  lock_acquires : Nat
  lock_releases : Nat
deriving Repr, DecidableEq

/-- `logf_init()`: records the calling thread id as `g_main_tid` and creates
the mutex.  The buffers are the (initially empty) globals. -/
def logf_init (tid : Nat) : LogState :=
  { main_tid := tid
    g_log := []
    g_thread_log := []
    lock_acquires := 0
    lock_releases := 0 }

/-- `logf(fmt, ...)`: `buf` is the `vasprintf` result (`none` = allocation or
formatting failure, i.e. `buf == NULL`).  `tid` is `SDL_ThreadID()` of the
caller.  On the main thread the entry is pushed onto `g_log` directly; on any
other thread the mutex is taken, the entry is pushed onto `g_thread_log`, and
the mutex is released. -/
def logf (tid : Nat) (buf : Option String) (s : LogState) : LogState :=
  match buf with
  | none => s
  | some b =>
    if tid = s.main_tid then
      { s with g_log := s.g_log ++ [b] }
    else
      { s with
        g_thread_log := s.g_thread_log ++ [b]
        lock_acquires := s.lock_acquires + 1
        lock_releases := s.lock_releases + 1 }

/-- `logf_update()`: if `g_thread_log` is non-empty, take the lock, push every
staged entry onto `g_log` in order, clear `g_thread_log`, release the lock;
otherwise do nothing (the `if ( g_thread_log.size() )` fast path). -/
def logf_update (s : LogState) : LogState :=
  if s.g_thread_log.length ≠ 0 then
    { s with
      g_log := s.g_log ++ s.g_thread_log
      g_thread_log := []
      lock_acquires := s.lock_acquires + 1
      lock_releases := s.lock_releases + 1 }
  else s

/-- `logf_clear()`: first `logf_update()`, then free every entry of `g_log`
and clear it. -/
def logf_clear (s : LogState) : LogState :=
  let s' := logf_update s
  { s' with g_log := [] }

/-- `logf_get()`: returns (a const reference to) `g_log`. -/
def logf_get (s : LogState) : List String :=
  s.g_log

/-- One call into the log subsystem, for reasoning about call sequences:
an `append` carries the caller's thread id and the `vasprintf` result. -/
inductive LogOp where
  | append (tid : Nat) (buf : Option String)
  | drain
  | clear
deriving Repr, DecidableEq

/-- Dispatch one call on the log state. -/
def logStep (s : LogState) (op : LogOp) : LogState :=
  match op with
  | .append tid buf => logf tid buf s
  | .drain => logf_update s
  | .clear => logf_clear s

/-- Run a sequence of calls on the log state. -/
def runOps (s : LogState) (ops : List LogOp) : LogState :=
  ops.foldl logStep s

/-- Spec-side model of the buffer pair, written from the spec's description
of the ordering guarantees: an abstract pair (primary, staged).  A successful
main-thread append goes to the end of primary, a successful non-main append
to the end of staged; a drain moves the whole staged batch to the end of
primary at the point it occurs; a clear drains and then empties primary. -/
def specStep (mtid : Nat) (pr : List String × List String) (op : LogOp) :
    List String × List String :=
  match op with
  | .append tid buf =>
    match buf with
    | none => pr
    | some b => if tid = mtid then (pr.1 ++ [b], pr.2) else (pr.1, pr.2 ++ [b])
  | .drain => (pr.1 ++ pr.2, [])
  | .clear => ([], [])

/-- Spec-side run of a call sequence over the abstract buffer pair. -/
def specRun (mtid : Nat) (pr : List String × List String) (ops : List LogOp) :
    List String × List String :=
  ops.foldl (specStep mtid) pr

/-! ### Basic lemmas about the log operations -/

lemma logStep_main_tid (s : LogState) (op : LogOp) :
    (logStep s op).main_tid = s.main_tid := by
  cases op with
  | append tid buf =>
    cases buf with
    | none => rfl
    | some b =>
      simp only [logStep, logf]
      split <;> rfl
  | drain =>
    simp only [logStep, logf_update]
    split <;> rfl
  | clear =>
    simp only [logStep, logf_clear, logf_update]
    split <;> rfl

lemma logStep_obs (s : LogState) (op : LogOp) :
    ((logStep s op).g_log, (logStep s op).g_thread_log)
      = specStep s.main_tid (s.g_log, s.g_thread_log) op := by
  cases op with
  | append tid buf =>
    cases buf with
    | none => rfl
    | some b =>
      simp only [logStep, logf, specStep]
      split <;> rfl
  | drain =>
    by_cases h : s.g_thread_log.length ≠ 0
    · simp only [logStep, logf_update, if_pos h, specStep]
    · have h' : s.g_thread_log = [] := by
        cases hl : s.g_thread_log with
        | nil => rfl
        | cons a l => rw [hl] at h; simp at h
      simp only [logStep, logf_update, if_neg h, specStep]
      simp [h']
  | clear =>
    by_cases h : s.g_thread_log.length ≠ 0
    · simp only [logStep, logf_clear, logf_update, if_pos h, specStep]
    · have h' : s.g_thread_log = [] := by
        cases hl : s.g_thread_log with
        | nil => rfl
        | cons a l => rw [hl] at h; simp at h
      simp only [logStep, logf_clear, logf_update, if_neg h, specStep]
      simp [h']

/-- The implementation refines the spec-side model: after any call sequence,
the concrete buffer pair equals the abstract one. -/
lemma runOps_spec (ops : List LogOp) :
    ∀ s : LogState,
      ((runOps s ops).g_log, (runOps s ops).g_thread_log)
        = specRun s.main_tid (s.g_log, s.g_thread_log) ops := by
  induction ops with
  | nil => intro s; rfl
  | cons op rest ih =>
    intro s
    have hstep := logStep_obs s op
    have htid := logStep_main_tid s op
    have := ih (logStep s op)
    simp only [runOps, List.foldl_cons, specRun] at this ⊢
    rw [this, htid, ← hstep]

lemma logf_update_g_log (s : LogState) :
    (logf_update s).g_log = s.g_log ++ s.g_thread_log := by
  by_cases h : s.g_thread_log.length ≠ 0
  · simp [logf_update, h]
  · have h' : s.g_thread_log = [] := List.length_eq_zero.mp (by omega)
    simp [logf_update, h, h']

lemma logf_update_g_thread_log (s : LogState) :
    (logf_update s).g_thread_log = [] := by
  by_cases h : s.g_thread_log.length ≠ 0
  · simp [logf_update, h]
  · have h' : s.g_thread_log = [] := List.length_eq_zero.mp (by omega)
    simp [logf_update, h, h']

lemma logf_update_main_tid (s : LogState) :
    (logf_update s).main_tid = s.main_tid := by
  by_cases h : s.g_thread_log.length ≠ 0 <;> simp [logf_update, h]

lemma logf_update_of_empty (s : LogState) (h : s.g_thread_log = []) :
    logf_update s = s := by
  simp [logf_update, h]

lemma specRun_appends (mtid : Nat) (apps : List (Nat × Option String)) :
    ∀ pr : List String × List String,
      specRun mtid pr (apps.map fun p => LogOp.append p.1 p.2)
        = (pr.1 ++ apps.filterMap (fun p => if p.1 = mtid then p.2 else none),
           pr.2 ++ apps.filterMap (fun p => if p.1 = mtid then none else p.2)) := by
  induction apps with
  | nil => intro pr; simp [specRun]
  | cons q rest ih =>
    intro pr
    rcases q with ⟨tid, buf⟩
    cases buf with
    | none =>
      simp only [List.map_cons, specRun, List.foldl_cons, specStep, List.filterMap_cons]
      have := ih pr
      simp only [specRun] at this
      simpa using this
    | some b =>
      by_cases hm : tid = mtid
      · simp only [List.map_cons, specRun, List.foldl_cons, specStep, if_pos hm,
          List.filterMap_cons]
        have := ih (pr.1 ++ [b], pr.2)
        simp only [specRun] at this
        simp [this, hm]
      · simp only [List.map_cons, specRun, List.foldl_cons, specStep, if_neg hm,
          List.filterMap_cons]
        have := ih (pr.1, pr.2 ++ [b])
        simp only [specRun] at this
        simp [this, hm]

lemma specRun_concat_drain (mtid : Nat) (pr : List String × List String)
    (l : List LogOp) :
    specRun mtid pr (l ++ [LogOp.drain])
      = ((specRun mtid pr l).1 ++ (specRun mtid pr l).2, []) := by
  simp [specRun, List.foldl_append, specStep]

/-! ### The claims about the log buffer -/

/-- C1.  Read refines the spec-side interleaving model: for every sequence of
Append and Drain (and Clear) operations, the sequence returned by `logf_get`
equals the main-thread appends in call order interleaved with whole-batch
insertions of everything staged since the previous drain, each batch inserted
unsplit and in staged order at the point its drain occurs.  In particular for
main-thread appends A1, A2 with a non-main append B1 and a drain between A1
and A2, Read yields [A1, B1, A2]. -/
theorem c1_read_matches_interleaving_model (mtid : Nat) (ops : List LogOp) :
    logf_get (runOps (logf_init mtid) ops) = (specRun mtid ([], []) ops).1
    ∧ logf_get (runOps (logf_init 0)
        [LogOp.append 0 (some "A1"), LogOp.append 1 (some "B1"), LogOp.drain,
         LogOp.append 0 (some "A2")]) = ["A1", "B1", "A2"] := by
  constructor
  · have h := runOps_spec ops (logf_init mtid)
    have := congrArg Prod.fst h
    simpa [logf_get, logf_init] using this
  · rfl

/-- C2.  Append routing: `logf_init` records the initializing thread id; a
successful `logf` from the recorded main thread pushes onto `g_log` without
touching the mutex, while a successful `logf` from any other thread acquires
the mutex, pushes onto `g_thread_log`, and releases the mutex; `g_log` is
never written by a non-main-thread append (in particular a failed format
leaves it untouched). -/
theorem c2_append_routing (s : LogState) (tid t0 : Nat) (b : String) :
    (logf_init t0).main_tid = t0
    ∧ (logf tid (some b) s).g_log
        = (if tid = s.main_tid then s.g_log ++ [b] else s.g_log)
    ∧ (logf tid (some b) s).g_thread_log
        = (if tid = s.main_tid then s.g_thread_log else s.g_thread_log ++ [b])
    ∧ (logf tid (some b) s).lock_acquires
        = (if tid = s.main_tid then s.lock_acquires else s.lock_acquires + 1)
    ∧ (logf tid (some b) s).lock_releases
        = (if tid = s.main_tid then s.lock_releases else s.lock_releases + 1)
    ∧ (logf tid none s).g_log = s.g_log := by
  refine ⟨rfl, ?_, ?_, ?_, ?_, rfl⟩ <;>
    · by_cases h : tid = s.main_tid <;> simp [logf, h]

/-- C3.  Drain: `logf_update` moves every staged entry to the end of `g_log`
in order and leaves `g_thread_log` empty; when `g_thread_log` is already
empty it is a no-op that does not touch the mutex. -/
theorem c3_drain_moves_batch (s : LogState) :
    (logf_update s).g_log = s.g_log ++ s.g_thread_log
    ∧ (logf_update s).g_thread_log = []
    ∧ (logf_update s).main_tid = s.main_tid
    ∧ (logf_update s).lock_acquires
        = (if s.g_thread_log = [] then s.lock_acquires else s.lock_acquires + 1)
    ∧ (s.g_thread_log = [] → logf_update s = s) := by
  refine ⟨logf_update_g_log s, logf_update_g_thread_log s, logf_update_main_tid s,
    ?_, logf_update_of_empty s⟩
  by_cases h : s.g_thread_log = []
  · simp [logf_update, h]
  · have hlen : s.g_thread_log.length ≠ 0 := by
      intro hc
      exact h (List.length_eq_zero.mp hc)
    simp [logf_update, hlen, h]

/-- Witness for C3 at a concrete state with an empty staged buffer. -/
theorem c3_drain_moves_batch_witness :
    (logf_init 5).g_thread_log = [] ∧ logf_update (logf_init 5) = logf_init 5 :=
  ⟨rfl, (c3_drain_moves_batch (logf_init 5)).2.2.2.2 rfl⟩

/-- C4.  Clear: `logf_clear` first drains, then empties `g_log`, so an
immediately following Read returns `[]`; any subsequent appends followed by a
drain are read back exactly (main-thread entries in call order, then the
staged entries in call order), with no residue from before the clear. -/
theorem c4_clear_empties_and_no_residue (s : LogState)
    (apps : List (Nat × Option String)) :
    logf_get (logf_clear s) = []
    ∧ (logf_clear s).g_thread_log = []
    ∧ logf_get (runOps (logf_clear s)
          ((apps.map fun p => LogOp.append p.1 p.2) ++ [LogOp.drain]))
        = apps.filterMap (fun p => if p.1 = s.main_tid then p.2 else none)
          ++ apps.filterMap (fun p => if p.1 = s.main_tid then none else p.2) := by
  have hclear_log : (logf_clear s).g_log = [] := rfl
  have hclear_tl : (logf_clear s).g_thread_log = [] := logf_update_g_thread_log s
  have hclear_tid : (logf_clear s).main_tid = s.main_tid := logf_update_main_tid s
  refine ⟨hclear_log, hclear_tl, ?_⟩
  have hobs := runOps_spec ((apps.map fun p => LogOp.append p.1 p.2) ++ [LogOp.drain])
    (logf_clear s)
  have h1 := congrArg Prod.fst hobs
  rw [hclear_log, hclear_tl, hclear_tid] at h1
  have h2 : (runOps (logf_clear s)
        ((apps.map fun p => LogOp.append p.1 p.2) ++ [LogOp.drain])).g_log
      = (specRun s.main_tid ([], [])
          ((apps.map fun p => LogOp.append p.1 p.2) ++ [LogOp.drain])).1 := by
    simpa using h1
  rw [logf_get, h2, specRun_concat_drain, specRun_appends]
  simp

/-- C5.  A `logf` call whose `vasprintf` produced no buffer (`buf == NULL`)
is a complete no-op: the state, and hence both buffers and the Read result,
are unchanged, and nothing is reported to the caller (the function returns
`void`, modelled as returning only the state). -/
theorem c5_failed_format_is_noop (tid : Nat) (s : LogState) :
    logf tid none s = s
    ∧ logf_get (logf tid none s) = logf_get s
    ∧ (logf tid none s).g_log = s.g_log
    ∧ (logf tid none s).g_thread_log = s.g_thread_log :=
  ⟨rfl, rfl, rfl, rfl⟩

/-- C6.  Drain is idempotent: a second `logf_update` with no intervening
append changes nothing at all (including the mutex counters, since the
fast-path check sees an empty `g_thread_log`). -/
theorem c6_drain_idempotent (s : LogState) :
    logf_update (logf_update s) = logf_update s :=
  logf_update_of_empty (logf_update s) (logf_update_g_thread_log s)

/-- Counterexample to C7 as stated: "A" is appended (from the main thread)
after the most recent drain, yet it appears in the Read result although no
subsequent drain has occurred. -/
theorem c7_counterexample :
    logf_get (runOps (logf_init 0) [LogOp.drain, LogOp.append 0 (some "A")])
      = ["A"] := rfl

/-- C7 (amended).  `logf_get` is a view of `g_log` in insertion order, and
entries appended by non-main-thread Appends after the most recent drain do
not appear in it until a subsequent drain, at which point they do appear. -/
theorem c7_amended_nonmain_invisible_until_drain (s : LogState) (tid : Nat)
    (buf : Option String) (b : String) (h : tid ≠ s.main_tid) :
    logf_get s = s.g_log
    ∧ logf_get (logf tid buf s) = logf_get s
    ∧ logf_get (logf_update (logf tid (some b) s))
        = s.g_log ++ s.g_thread_log ++ [b] := by
  refine ⟨rfl, ?_, ?_⟩
  · cases buf with
    | none => rfl
    | some b' => simp [logf_get, logf, h]
  · rw [logf_get, logf_update_g_log]
    simp [logf, h, List.append_assoc]

/-- Witness for C7 (amended) at a concrete non-main thread id. -/
theorem c7_amended_witness :
    (1 : Nat) ≠ (logf_init 0).main_tid
    ∧ logf_get (logf 1 (some "B") (logf_init 0)) = logf_get (logf_init 0)
    ∧ logf_get (logf_update (logf 1 (some "B") (logf_init 0))) = ["B"] := by
  refine ⟨by decide, ?_, ?_⟩
  · exact (c7_amended_nonmain_invisible_until_drain (logf_init 0) 1 (some "B") "B"
      (by decide)).2.1
  · have h := (c7_amended_nonmain_invisible_until_drain (logf_init 0) 1 (some "B") "B"
      (by decide)).2.2
    simpa using h

/-! ### Component index codec (`comp_val_to_abc` / `comp_abc_to_val`) -/

/-- Reduce a value to `uint32_t` range, modelling C unsigned 32-bit wrap. -/
def u32 (n : Nat) : Nat := n % 2 ^ 32

/-- `comp_val_to_abc( val, a, b, c )`: sets `c = val % 9`, `b = (val / 9) % 4`,
`a = val / 36 + 1` and returns `a <= 2`.  The `uint32_t` divisions cannot
wrap, so plain `Nat` arithmetic is exact for every representable `val`. -/
def comp_val_to_abc (val : Nat) : Bool × Nat × Nat × Nat :=
  let c := val % 9
  let b := (val / 9) % 4
  let a := val / 36 + 1
  (decide (a ≤ 2), a, b, c)

/-- `comp_abc_to_val( a, b, c )`: `( a - 1 ) * 36 + ( b * 9 ) + c` in
`uint32_t` arithmetic; `a - 1` wraps for `a = 0`, hence the `u32` reductions
(`a + 2^32 - 1` is the unsigned value of `a - 1` for representable `a`). -/
def comp_abc_to_val (a b c : Nat) : Nat :=
  u32 (u32 (u32 (a + (2 ^ 32 - 1)) * 36) + u32 (b * 9) + c)

/-- In the component ranges no `uint32_t` operation wraps, so the encoder is
the plain `( a - 1 ) * 36 + b * 9 + c`. -/
lemma comp_abc_to_val_eq (a b c : Nat) (ha1 : 1 ≤ a) (ha2 : a ≤ 2)
    (hb : b ≤ 3) (hc : c ≤ 8) :
    comp_abc_to_val a b c = (a - 1) * 36 + b * 9 + c := by
  have h32 : (2 : Nat) ^ 32 = 4294967296 := by norm_num
  simp only [comp_abc_to_val, u32, h32]
  have h1 : (a + (4294967296 - 1)) % 4294967296 = a - 1 := by omega
  rw [h1]
  have h2 : (a - 1) * 36 % 4294967296 = (a - 1) * 36 := Nat.mod_eq_of_lt (by omega)
  rw [h2]
  have h3 : b * 9 % 4294967296 = b * 9 := Nat.mod_eq_of_lt (by omega)
  rw [h3]
  exact Nat.mod_eq_of_lt (by omega)

/-- C8.  The component index codec round-trips: for a in {1,2}, b in {0..3},
c in {0..8}, decoding the encoded value succeeds and returns exactly
(a, b, c); conversely every val < 72 decodes successfully and re-encodes to
itself, while every val >= 72 is rejected. -/
theorem c8_comp_index_codec_roundtrip (a b c val : Nat)
    (ha1 : 1 ≤ a) (ha2 : a ≤ 2) (hb : b ≤ 3) (hc : c ≤ 8) :
    comp_val_to_abc (comp_abc_to_val a b c) = (true, a, b, c)
    ∧ (val < 72 →
        (comp_val_to_abc val).1 = true
        ∧ comp_abc_to_val (comp_val_to_abc val).2.1 (comp_val_to_abc val).2.2.1
            (comp_val_to_abc val).2.2.2 = val)
    ∧ (72 ≤ val → (comp_val_to_abc val).1 = false) := by
  refine ⟨?_, fun hv => ⟨?_, ?_⟩, fun hv => ?_⟩
  · rw [comp_abc_to_val_eq a b c ha1 ha2 hb hc]
    simp only [comp_val_to_abc, Prod.mk.injEq, decide_eq_true_eq]
    refine ⟨?_, ?_, ?_, ?_⟩ <;> omega
  · simp only [comp_val_to_abc, decide_eq_true_eq]
    omega
  · simp only [comp_val_to_abc]
    rw [comp_abc_to_val_eq (val / 36 + 1) (val / 9 % 4) (val % 9)
      (by omega) (by omega) (by omega) (by omega)]
    omega
  · simp only [comp_val_to_abc, decide_eq_false_iff_not]
    omega

/-- Witness for C8 at a = 2, b = 3, c = 4 and at val = 40 and val = 100. -/
theorem c8_comp_index_codec_roundtrip_witness :
    1 ≤ 2 ∧ 2 ≤ 2 ∧ 3 ≤ 3 ∧ 4 ≤ 8
    ∧ comp_val_to_abc (comp_abc_to_val 2 3 4) = (true, 2, 3, 4)
    ∧ ((comp_val_to_abc 40).1 = true
        ∧ comp_abc_to_val (comp_val_to_abc 40).2.1 (comp_val_to_abc 40).2.2.1
            (comp_val_to_abc 40).2.2.2 = 40)
    ∧ (comp_val_to_abc 100).1 = false := by
  refine ⟨by norm_num, by norm_num, by norm_num, by norm_num, ?_, ?_, ?_⟩
  · exact (c8_comp_index_codec_roundtrip 2 3 4 40 (by norm_num) (by norm_num)
      (by norm_num) (by norm_num)).1
  · exact (c8_comp_index_codec_roundtrip 2 3 4 40 (by norm_num) (by norm_num)
      (by norm_num) (by norm_num)).2.1 (by norm_num)
  · exact (c8_comp_index_codec_roundtrip 2 3 4 100 (by norm_num) (by norm_num)
      (by norm_num) (by norm_num)).2.2 (by norm_num)

/-! ### Component string codec (`comp_str_parse` / `comp_str_create_abc`) -/

/-- Indexing into a C string: reading at or past the end of the character
data yields the NUL terminator. -/
def cAt (s : List Char) (i : Nat) : Char := s.getD i (Char.ofNat 0)

/-- C `isdigit`: the character's code point lies between '0' and '9'. -/
def isdigit (ch : Char) : Bool :=
  decide ('0'.toNat ≤ ch.toNat ∧ ch.toNat ≤ '9'.toNat)

/-- `comp_str_parse( comp, a, b, c )`: checks `strncmp( comp, "comp_", 5 )`,
that `comp[5]` is '1' or '2', `comp[6] == '.'`, `isdigit( comp[7] )`,
`comp[8] == '.'` and `isdigit( comp[9] )`; on structural match it assigns
`a = comp[5]-'0'`, `b = comp[7]-'0'`, `c = comp[9]-'0'` and returns
`b <= 3 && c <= 8`.  On a structural mismatch the reference parameters
(modelled as `a0 b0 c0`) are left unchanged and it returns false. -/
def comp_str_parse (comp : List Char) (a0 b0 c0 : Nat) : Bool × Nat × Nat × Nat :=
  if (cAt comp 0 = 'c' ∧ cAt comp 1 = 'o' ∧ cAt comp 2 = 'm' ∧ cAt comp 3 = 'p'
        ∧ cAt comp 4 = '_')
      ∧ (cAt comp 5 = '1' ∨ cAt comp 5 = '2')
      ∧ cAt comp 6 = '.'
      ∧ isdigit (cAt comp 7) = true
      ∧ cAt comp 8 = '.'
      ∧ isdigit (cAt comp 9) = true then
    (decide ((cAt comp 7).toNat - '0'.toNat ≤ 3 ∧ (cAt comp 9).toNat - '0'.toNat ≤ 8),
     (cAt comp 5).toNat - '0'.toNat,
     (cAt comp 7).toNat - '0'.toNat,
     (cAt comp 9).toNat - '0'.toNat)
  else (false, a0, b0, c0)

/-- `comp_str_create_abc( a, b, c )`: the expansion of
`string_format( "comp_%u.%u.%u", a, b, c )` — "comp_" followed by the decimal
renderings of the three `uint32_t` values separated by dots. -/
def comp_str_create_abc (a b c : Nat) : List Char :=
  "comp_".data ++ (Nat.repr (u32 a)).data ++ ['.']
    ++ (Nat.repr (u32 b)).data ++ ['.'] ++ (Nat.repr (u32 c)).data

/-- Spec-side shape of a well-formed component string: the first 10
characters read "comp_", then '1' or '2', '.', a digit up to '3', '.', and a
digit up to '8' (i.e. they are `comp_[1-2].[0-3].[0-8]` with single-digit
components). -/
def compForm10 (s : List Char) : Prop :=
  10 ≤ s.length ∧ cAt s 0 = 'c' ∧ cAt s 1 = 'o' ∧ cAt s 2 = 'm' ∧ cAt s 3 = 'p'
    ∧ cAt s 4 = '_' ∧ (cAt s 5 = '1' ∨ cAt s 5 = '2') ∧ cAt s 6 = '.'
    ∧ ('0'.toNat ≤ (cAt s 7).toNat ∧ (cAt s 7).toNat ≤ '3'.toNat)
    ∧ cAt s 8 = '.'
    ∧ ('0'.toNat ≤ (cAt s 9).toNat ∧ (cAt s 9).toNat ≤ '8'.toNat)

instance (s : List Char) : Decidable (compForm10 s) := by
  unfold compForm10
  infer_instance

/-- Counterexample to C9 as stated: "comp_1.2.3x" is not of the form
`comp_[1-2].[0-3].[0-8]` (it equals no created component string, having a
trailing character), yet `comp_str_parse` accepts it — the parser never
looks past index 9. -/
theorem c9_counterexample :
    comp_str_parse ("comp_1.2.3x".data) 0 0 0 = (true, 1, 2, 3)
    ∧ ("comp_1.2.3x".data).length ≠ 10
    ∧ (∀ a, a < 3 → ∀ b, b < 4 → ∀ c, c < 9 →
        comp_str_create_abc a b c ≠ "comp_1.2.3x".data) := by
  decide

/-- C9 (amended).  The component string codec round-trips: for a in {1,2},
b in {0..3}, c in {0..8}, parsing the created string succeeds and assigns
exactly (a, b, c); created strings are well-formed; and every input whose
first 10 characters are not of the form `comp_[1-2].[0-3].[0-8]` is
rejected (inputs with a well-formed 10-character prefix but trailing
characters are accepted too). -/
theorem c9_amended_comp_string_codec (a b c a0 b0 c0 : Nat) (s : List Char)
    (ha1 : 1 ≤ a) (ha2 : a ≤ 2) (hb : b ≤ 3) (hc : c ≤ 8) :
    comp_str_parse (comp_str_create_abc a b c) a0 b0 c0 = (true, a, b, c)
    ∧ compForm10 (comp_str_create_abc a b c)
    ∧ (¬ compForm10 s → (comp_str_parse s a0 b0 c0).1 = false) := by
  refine ⟨?_, ?_, ?_⟩
  · interval_cases a <;> interval_cases b <;> interval_cases c <;>
      · simp only [comp_str_parse]
        split
        · rfl
        · next hcond => exact absurd (by decide) hcond
  · interval_cases a <;> interval_cases b <;> interval_cases c <;> decide
  · intro hnf
    simp only [comp_str_parse]
    split
    · next hcond =>
      apply decide_eq_false
      intro hP
      apply hnf
      obtain ⟨⟨h0, h1, h2, h3, h4⟩, h5, h6, h7, h8, h9⟩ := hcond
      have hd7 : '0'.toNat ≤ (cAt s 7).toNat ∧ (cAt s 7).toNat ≤ '9'.toNat := by
        simpa [isdigit] using h7
      have hd9 : '0'.toNat ≤ (cAt s 9).toNat ∧ (cAt s 9).toNat ≤ '9'.toNat := by
        simpa [isdigit] using h9
      have hlen : 10 ≤ s.length := by
        by_contra hshort
        have h9d : cAt s 9 = Char.ofNat 0 :=
          List.getD_eq_default _ _ (by omega)
        rw [h9d] at hd9
        revert hd9
        decide
      have h48 : '0'.toNat = 48 := rfl
      have h51 : '3'.toNat = 51 := rfl
      have h56 : '8'.toNat = 56 := rfl
      have h57 : '9'.toNat = 57 := rfl
      refine ⟨hlen, h0, h1, h2, h3, h4, h5, h6, ⟨hd7.1, ?_⟩, h8, ⟨hd9.1, ?_⟩⟩
      · omega
      · omega
    · rfl

/-- Witness for C9 (amended) at a = 1, b = 2, c = 3 and the non-matching
input "x". -/
theorem c9_amended_witness :
    1 ≤ 1 ∧ 1 ≤ 2 ∧ 2 ≤ 3 ∧ 3 ≤ 8
    ∧ comp_str_parse (comp_str_create_abc 1 2 3) 7 7 7 = (true, 1, 2, 3)
    ∧ compForm10 (comp_str_create_abc 1 2 3)
    ∧ ¬ compForm10 ("x".data)
    ∧ (comp_str_parse ("x".data) 7 7 7).1 = false := by
  have h := c9_amended_comp_string_codec 1 2 3 7 7 7 ("x".data)
    (by norm_num) (by norm_num) (by norm_num) (by norm_num)
  exact ⟨by norm_num, by norm_num, by norm_num, by norm_num,
    h.1, h.2.1, by decide, h.2.2 (by decide)⟩

/-! ### In-place substring replacement (`string_replace_str`) -/

/-- `std::string::find( search, pos )`: the smallest index `i >= pos` at
which `search` occurs in `s` (an occurrence must fit inside `s`), or `none`
(`std::string::npos`). -/
def strFind (s pat : List Char) (pos : Nat) : Option Nat :=
  (List.range (s.length + 1)).find?
    (fun i => decide (pos ≤ i) && pat.isPrefixOf (s.drop i))

/-- Loop of `string_replace_str`, with an explicit iteration bound (`fuel`):
find `search` at or after `pos`; if absent stop, otherwise erase it, insert
`replace` in its place, and continue from just past the inserted text
(`pos += replace.length()` of the `for` update).  Returns the final string
together with the final scan position. -/
def replaceLoop (search replace : List Char) :
    Nat → List Char → Nat → List Char × Nat
  | 0, s, pos => (s, pos)
  | fuel + 1, s, pos =>
    match strFind s search pos with
    | none => (s, pos)
    | some p =>
      replaceLoop search replace fuel
        (s.take p ++ replace ++ s.drop (p + search.length)) (p + replace.length)

/-- `string_replace_str( s, search, replace )`.  For a non-empty `search`
each iteration strictly shrinks `s.length - pos`, so `s.length + 1`
iterations always suffice (proved below as fuel-independence). -/
def string_replace_str (s search replace : List Char) : List Char :=
  (replaceLoop search replace (s.length + 1) s 0).1

lemma strFind_none_of_gt (s pat : List Char) (pos : Nat) (h : s.length < pos) :
    strFind s pat pos = none := by
  apply List.find?_eq_none.mpr
  intro i hi
  rw [List.mem_range] at hi
  simp only [Bool.and_eq_true, decide_eq_true_eq, not_and]
  intro hle
  omega

lemma strFind_some (s pat : List Char) (pos p : Nat)
    (h : strFind s pat pos = some p) :
    pos ≤ p ∧ p + pat.length ≤ s.length := by
  have hmem := List.mem_of_find?_eq_some h
  have hpred := List.find?_some h
  rw [List.mem_range] at hmem
  simp only [Bool.and_eq_true, decide_eq_true_eq] at hpred
  have hpre : pat <+: s.drop p := List.isPrefixOf_iff_prefix.mp hpred.2
  have hlen := hpre.length_le
  rw [List.length_drop] at hlen
  exact ⟨hpred.1, by omega⟩

lemma splice_length (s replace : List Char) (p slen : Nat)
    (hp : p + slen ≤ s.length) :
    (s.take p ++ replace ++ s.drop (p + slen)).length
      = s.length + replace.length - slen := by
  simp only [List.length_append, List.length_take, List.length_drop]
  omega

/-- With a non-empty `search` and at least `s.length + 1 - pos` iterations of
fuel, the loop runs to completion: at the returned string and scan position
the find fails (this is how the C loop exits). -/
lemma replaceLoop_post (search replace : List Char) (hne : search ≠ []) :
    ∀ fuel s pos, s.length + 1 ≤ fuel + pos →
      strFind (replaceLoop search replace fuel s pos).1 search
        (replaceLoop search replace fuel s pos).2 = none := by
  intro fuel
  induction fuel with
  | zero =>
    intro s pos h
    simp only [replaceLoop]
    exact strFind_none_of_gt _ _ _ (by omega)
  | succ n ih =>
    intro s pos h
    cases hf : strFind s search pos with
    | none => simp [replaceLoop, hf]
    | some p =>
      simp only [replaceLoop, hf]
      obtain ⟨hpos, hple⟩ := strFind_some _ _ _ _ hf
      have hlen1 : 1 ≤ search.length := by
        cases hs : search with
        | nil => exact absurd hs hne
        | cons x xs => simp [hs]
      apply ih
      rw [splice_length s replace p search.length (by omega)]
      omega

/-- With a non-empty `search`, any two sufficient fuel amounts give the same
result: the loop terminates within `s.length + 1 - pos` iterations. -/
lemma replaceLoop_fuel_eq (search replace : List Char) (hne : search ≠ []) :
    ∀ fuel1 fuel2 s pos, s.length + 1 ≤ fuel1 + pos →
      s.length + 1 ≤ fuel2 + pos →
      replaceLoop search replace fuel1 s pos
        = replaceLoop search replace fuel2 s pos := by
  intro fuel1
  induction fuel1 with
  | zero =>
    intro fuel2 s pos h1 h2
    cases fuel2 with
    | zero => rfl
    | succ m =>
      have hnf : strFind s search pos = none := strFind_none_of_gt _ _ _ (by omega)
      simp [replaceLoop, hnf]
  | succ n ih =>
    intro fuel2 s pos h1 h2
    cases fuel2 with
    | zero =>
      have hnf : strFind s search pos = none := strFind_none_of_gt _ _ _ (by omega)
      simp [replaceLoop, hnf]
    | succ m =>
      cases hf : strFind s search pos with
      | none => simp [replaceLoop, hf]
      | some p =>
        simp only [replaceLoop, hf]
        obtain ⟨hpos, hple⟩ := strFind_some _ _ _ _ hf
        have hlen1 : 1 ≤ search.length := by
          cases hs : search with
          | nil => exact absurd hs hne
          | cons x xs => simp [hs]
        apply ih
        · rw [splice_length s replace p search.length (by omega)]
          omega
        · rw [splice_length s replace p search.length (by omega)]
          omega

/-- Counterexample to C10 as stated: replacing "ab" by the empty string in
"aabb" terminates with result "ab", which still contains an occurrence of
the search string — and with an empty replacement no inserted replacement
text exists for it to lie in.  (The deletion glued the leading 'a' to the
trailing 'b' behind the already-advanced scan position.) -/
theorem c10_counterexample :
    string_replace_str ("aabb".data) ("ab".data) [] = "ab".data
    ∧ strFind ("ab".data) ("ab".data) 0 = some 0 := by
  decide

/-- C10 (amended).  For a non-empty search string the loop terminates — any
fuel of at least `s.length + 1` yields the identical result — and each
iteration resumes scanning exactly at the end of the inserted replacement,
so inserted text is never rescanned; on return no occurrence of the search
string starts at or after the final scan position (occurrences before it can
remain when an erasure glues surrounding text together). -/
theorem c10_amended_replace_terminates (s search replace : List Char)
    (h : search ≠ []) :
    (∀ fuel, s.length + 1 ≤ fuel →
        replaceLoop search replace fuel s 0
          = replaceLoop search replace (s.length + 1) s 0)
    ∧ (∀ t : List Char, ∀ fuel pos p, strFind t search pos = some p →
        replaceLoop search replace (fuel + 1) t pos
          = replaceLoop search replace fuel
              (t.take p ++ replace ++ t.drop (p + search.length))
              (p + replace.length))
    ∧ strFind (string_replace_str s search replace) search
        (replaceLoop search replace (s.length + 1) s 0).2 = none := by
  refine ⟨?_, ?_, ?_⟩
  · intro fuel hf
    exact replaceLoop_fuel_eq search replace h fuel (s.length + 1) s 0
      (by omega) (by omega)
  · intro t fuel pos p hp
    simp [replaceLoop, hp]
  · exact replaceLoop_post search replace h (s.length + 1) s 0 (by omega)

/-- Witness for C10 (amended): replacing "a" by "b" in "aa". -/
theorem c10_amended_witness :
    ("a".data ≠ ([] : List Char))
    ∧ replaceLoop ("a".data) ("b".data) 5 ("aa".data) 0
        = replaceLoop ("a".data) ("b".data) 3 ("aa".data) 0
    ∧ strFind ("aa".data) ("a".data) 0 = some 0
    ∧ replaceLoop ("a".data) ("b".data) 4 ("aa".data) 0
        = replaceLoop ("a".data) ("b".data) 3
            (("aa".data).take 0 ++ "b".data ++ ("aa".data).drop (0 + ("a".data).length))
            (0 + ("b".data).length)
    ∧ strFind (string_replace_str ("aa".data) ("a".data) ("b".data)) ("a".data)
        (replaceLoop ("a".data) ("b".data) 3 ("aa".data) 0).2 = none := by
  have H := c10_amended_replace_terminates ("aa".data) ("a".data) ("b".data)
    (by decide)
  refine ⟨by decide, ?_, by decide, ?_, ?_⟩
  · exact H.1 5 (by decide)
  · exact H.2.1 ("aa".data) 3 0 0 (by decide)
  · exact H.2.2
